import Mathlib

/-!
Verification of the dropdown-driven dining-menu scraper (`scraper.py`,
`run_all.py`).  The definitions below are a shallow embedding of the
source: pure Python helpers become Lean functions, the Playwright-driven
control flow becomes explicit state passing over environments that record
the outcome of each browser interaction, and Python exceptions become
`Except` values.
-/

/-! ## Calendar dates (model of `datetime.date` as used by the scraper) -/

/-- Calendar date (year, month, day), ordered lexicographically like
Python `datetime.date`. -/
structure PDate where
  y : Nat
  m : Nat
  d : Nat
deriving DecidableEq

/-- Python `date` comparison `a <= b` (lexicographic on year, month, day). -/
def dateLe (a b : PDate) : Bool :=
  if a.y < b.y then true
  else if b.y < a.y then false
  else if a.m < b.m then true
  else if b.m < a.m then false
  else decide (a.d ≤ b.d)

/-- Leap-year test as in the Gregorian calendar used by `datetime`. -/
def isLeap (y : Nat) : Bool :=
  (y % 4 == 0 && y % 100 != 0) || (y % 400 == 0)

/-- Number of days in a month, used by `strptime` validity checking. -/
def daysInMonth (y m : Nat) : Nat :=
  if m = 2 then (if isLeap y then 29 else 28)
  else if m = 4 ∨ m = 6 ∨ m = 9 ∨ m = 11 then 30
  else 31

/-! ## Character-level string helpers (models of the Python string ops) -/

/-- Whitespace recognizer for the model of Python `str.strip`. -/
def isSpaceChar (c : Char) : Bool :=
  c == ' ' || c == '\t' || c == '\n' || c == '\r'

/-- Model of Python `str.strip` on a character list. -/
def trimChars (l : List Char) : List Char :=
  ((l.dropWhile isSpaceChar).reverse.dropWhile isSpaceChar).reverse

/-- Model of Python `str.split(sep)` for a single-character separator. -/
def splitOnChar (c : Char) : List Char → List (List Char)
  | [] => [[]]
  | x :: xs =>
    let r := splitOnChar c xs
    if x = c then [] :: r
    else
      match r with
      | [] => [[x]]
      | h :: t => (x :: h) :: t

/-- ASCII lower-casing of one character (`strptime` matches month names
case-insensitively). -/
def lowerChar (c : Char) : Char :=
  if 65 ≤ c.toNat ∧ c.toNat ≤ 90 then Char.ofNat (c.toNat + 32) else c

/-- Full month names recognized by `strptime`'s `%B` directive. -/
def monthNames : List (List Char) :=
  ["january".toList, "february".toList, "march".toList, "april".toList,
   "may".toList, "june".toList, "july".toList, "august".toList,
   "september".toList, "october".toList, "november".toList, "december".toList]

/-- Helper for `monthIndex`: positional search through the month table. -/
def monthIndexAux : List (List Char) → Nat → List Char → Option Nat
  | [], _, _ => none
  | n :: ns, i, t => if n = t then some (i + 1) else monthIndexAux ns (i + 1) t

/-- Month number (1..12) of a month-name token, case-insensitively, as
`strptime %B` resolves it; `none` when the token is not a month name. -/
def monthIndex (tok : List Char) : Option Nat :=
  monthIndexAux monthNames 0 (tok.map lowerChar)

/-- Numeric value of a decimal digit character, `none` otherwise. -/
def digitVal (c : Char) : Option Nat :=
  if 48 ≤ c.toNat ∧ c.toNat ≤ 57 then some (c.toNat - 48) else none

/-- Helper for `parseDigits`: left fold over digit characters. -/
def parseDigitsAux : List Char → Nat → Option Nat
  | [], acc => some acc
  | c :: cs, acc =>
    match digitVal c with
    | some v => parseDigitsAux cs (acc * 10 + v)
    | none => none

/-- Parse a nonempty all-digit token to a natural number. -/
def parseDigits : List Char → Option Nat
  | [] => none
  | l => parseDigitsAux l 0

/-- Day-of-month token as accepted by `strptime %d`: one or two digits
with value between 1 and 31. -/
def parseDayTok (t : List Char) : Option Nat :=
  if t.length ≤ 2 then
    match parseDigits t with
    | some d => if 1 ≤ d ∧ d ≤ 31 then some d else none
    | none => none
  else none

/-! ## DateLabelParser (`collect_date_options` in scraper.py) -/

/-- Year-wrap heuristic from `collect_date_options`: December today with a
January label moves to next year; January today with a December label
moves to the previous year. -/
def applyWrap (today : PDate) (m d : Nat) : PDate :=
  if today.m = 12 ∧ m = 1 then ⟨today.y + 1, m, d⟩
  else if today.m = 1 ∧ m = 12 then ⟨today.y - 1, m, d⟩
  else ⟨today.y, m, d⟩

/-- Model of the per-label body of `collect_date_options`: split the label
on the first comma, `strptime` the second part as month name and day with
the current year, validate the day against the month length, then apply
the year-wrap heuristic.  Any failure yields `none` (the Python code
catches the exception and skips the label). -/
def resolveLabel (today : PDate) (label : String) : Option PDate :=
  match splitOnChar ',' label.toList with
  | _ :: p1 :: _ =>
    match (splitOnChar ' ' (trimChars p1)).filter (fun t => !t.isEmpty) with
    | [mtok, dtok] =>
      match monthIndex mtok, parseDayTok dtok with
      | some m, some d =>
        if 1 ≤ d ∧ d ≤ daysInMonth today.y m then some (applyWrap today m d)
        else none
      | _, _ => none
    | _ => none
  | _ => none

/-- A label passes the filter of `collect_date_options` when it parses and
its resolved date is not before today. -/
def keepLabel (today : PDate) (l : String) : Bool :=
  match resolveLabel today l with
  | some dt => dateLe today dt
  | none => false

/-- Cap on kept dates (`MAX_DATES` in scraper.py). -/
def MAX_DATES : Nat := 10

/-- The accumulating loop of `collect_date_options`: each parseable label
whose resolved date is at least today is appended to the accumulator. -/
def cdoLoop (today : PDate) : List String → List String → List String
  | [], acc => acc
  | l :: ls, acc =>
    match resolveLabel today l with
    | some dt => if dateLe today dt then cdoLoop today ls (acc ++ [l]) else cdoLoop today ls acc
    | none => cdoLoop today ls acc

/-- Model of `collect_date_options`: filter the raw labels, then take the
first `MAX_DATES` of the survivors (`valid_dates[:MAX_DATES]`). -/
def collect_date_options (today : PDate) (labels : List String) : List String :=
  (cdoLoop today labels []).take MAX_DATES

/-! ## SectionBuilder (`build_sections` in scraper.py) -/

/-- One element of the Ten Kites `items` payload list.  Option fields model
Python dict keys that may be absent (`item.get(...)`). -/
structure RawItem where
  itemType : String
  sectionGuid : Option String
  sectionName : Option String
  recipeName : Option String
deriving DecidableEq

/-- Output section record of `build_sections`. -/
structure MenuSection where
  title : String
  items : List String
deriving DecidableEq

/-- Internal section record, still carrying the guid used for lookup. -/
structure SecAcc where
  id : Option String
  title : String
  items : List String
deriving DecidableEq

/-- Replace the element at position `n` (no effect when out of range);
models the in-place mutation of a section dict reachable both from the
`sections` list and from the `lookup` dict. -/
def updateAt {α : Type} (n : Nat) (f : α → α) : List α → List α
  | [] => []
  | x :: xs =>
    match n with
    | 0 => f x :: xs
    | n + 1 => x :: updateAt n f xs

/-- Model of the `lookup` dict: newest binding first, so lookup finds the
most recent assignment for a guid, like Python dict overwrite. -/
def bsFind : List (Option String × Nat) → Option String → Option Nat
  | [], _ => none
  | (k, i) :: rest, g => if k = g then some i else bsFind rest g

/-- Character-list prefix test, model of Python `str.startswith`. -/
def startsWithChars : List Char → List Char → Bool
  | [], _ => true
  | _ :: _, [] => false
  | p :: ps, c :: cs => p == c && startsWithChars ps cs

/-- Model of `item_type.startswith("section")`. -/
def isSectionType (s : String) : Bool :=
  startsWithChars "section".toList s.toList

/-- The left-to-right loop of `build_sections` over the raw items.  A
section item appends a fresh section and binds its guid; a recipe item
appends its (possibly defaulted) name to the section its guid resolves
to, synthesizing a placeholder section titled "Section" when the guid is
unbound.  The Python source creates the placeholder with an empty item
list and appends the recipe name to it immediately afterwards through the
shared reference; the net effect modeled here is a one-item section. -/
def bsLoop : List RawItem → List SecAcc → List (Option String × Nat) → List SecAcc
  | [], secs, _ => secs
  | it :: its, secs, lk =>
    if isSectionType it.itemType then
      bsLoop its (secs ++ [⟨it.sectionGuid, it.sectionName.getD "Section", []⟩])
        ((it.sectionGuid, secs.length) :: lk)
    else if it.itemType = "recipe" then
      match bsFind lk it.sectionGuid with
      | some i =>
        bsLoop its
          (updateAt i (fun s => ⟨s.id, s.title, s.items ++ [it.recipeName.getD "Untitled"]⟩) secs)
          lk
      | none =>
        bsLoop its (secs ++ [⟨it.sectionGuid, "Section", [it.recipeName.getD "Untitled"]⟩])
          ((it.sectionGuid, secs.length) :: lk)
    else bsLoop its secs lk

/-- Model of `build_sections`: run the loop, then project away the guid
(the Python code returns only `title` and `items`). -/
def build_sections (items : List RawItem) : List MenuSection :=
  (bsLoop items [] []).map (fun s => ⟨s.title, s.items⟩)

/-- Number of items with `itemType == "recipe"`. -/
def countRecipes : List RawItem → Nat
  | [] => 0
  | it :: its => (if it.itemType = "recipe" then 1 else 0) + countRecipes its

/-- Number of items whose type starts with "section". -/
def countSectionItems : List RawItem → Nat
  | [] => 0
  | it :: its => (if isSectionType it.itemType then 1 else 0) + countSectionItems its

/-- Total number of item strings across the emitted sections. -/
def sumItems : List MenuSection → Nat
  | [] => 0
  | s :: ss => s.items.length + sumItems ss

/-- Total number of item strings across accumulated sections. -/
def sumItemsA : List SecAcc → Nat
  | [] => 0
  | s :: ss => s.items.length + sumItemsA ss

/-! ## PayloadWatcher (the `wait_for_function` predicate inside
`select_period_and_get_json`) -/

/-- One polled DOM state: the visible selector name text (none when the
selector element is absent), whether the `[data-menu-json]` element is
attached, and its attribute value with null folded to the empty string. -/
structure PollState where
  name : Option String
  elPresent : Bool
  attr : String
deriving DecidableEq

/-- Direct translation of the polled JS predicate: it binds `oldJson` from
its arguments but never uses it; it succeeds exactly when the element is
present, the visible name equals the target text, and the attribute is
non-empty. -/
def updateSettled (targetText oldJson : String) (st : PollState) : Bool :=
  if st.elPresent = false then false
  else (st.name == some targetText) && !(st.attr == "")

/-- Model of the bounded poll `page.wait_for_function(...)`: over the
finite trace of states sampled before the deadline, the wait succeeds
exactly when some sampled state satisfies the predicate; an exhausted
trace is the timeout. -/
def awaitUpdate (targetText oldJson : String) (trace : List PollState) : Bool :=
  trace.any (fun st => updateSettled targetText oldJson st)

/-! ## DropdownController for periods (`select_period_and_get_json`) -/

/-- Observable outcome of one attempt of the period-selection loop:
whether the option was found and clicked, whether the settlement wait
succeeded before its deadline, the selector name text read in the timeout
handler, and the payload attribute value read when a branch returns. -/
structure PeriodAttempt where
  found : Bool
  settles : Bool
  currName : String
  payload : String
deriving DecidableEq

/-- Python exceptions that can escape `select_period_and_get_json`; only
the NameError raised by evaluating the undefined `current_label` is
reachable. -/
inductive PErr where
  | nameError
deriving DecidableEq

/-- The three-attempt loop of `select_period_and_get_json`, mirrored
branch by branch: a missed option falls through to the next attempt; a
settled wait returns the payload; on timeout the code returns the payload
when the visible name already equals the target, and on the final attempt
with a mismatched name it evaluates the undefined variable
`current_label`, raising NameError before the intended return or re-raise
can run.  Falling off the loop returns Python `None`. -/
def spLoop (env : Nat → PeriodAttempt) (t : String) : List Nat → Except PErr (Option String)
  | [] => Except.ok none
  | i :: rest =>
    if (env i).found = false then spLoop env t rest
    else if (env i).settles = true then Except.ok (some (env i).payload)
    else if (env i).currName = t then Except.ok (some (env i).payload)
    else if i = 2 then Except.error PErr.nameError
    else spLoop env t rest

/-- Model of `select_period_and_get_json` for a given per-attempt
environment and target period text. -/
def select_period_and_get_json (env : Nat → PeriodAttempt) (t : String) :
    Except PErr (Option String) :=
  spLoop env t [0, 1, 2]

/-! ## DropdownController for dates (`wait_for_date`, `select_date`) -/

/-- Observable outcome of one attempt of `select_date`: whether the
date-option elements attached after the panel click, whether the option
was found by the evaluated click script (the source only logs this),
whether the displayed date label settled to the target within the 5s
deadline, and whether the `.k10-menu-date-selector__name` element exists
(read by the timeout handler's diagnostic). -/
structure DateAttempt where
  optionsAttach : Bool
  found : Bool
  settles : Bool
  nameElemExists : Bool
deriving DecidableEq

/-- Model of `wait_for_date`: the timeout of the inner wait is caught and
only logged, so the call returns normally whenever the diagnostic read of
the name element succeeds; it raises only when that read itself fails. -/
def wait_for_date (a : DateAttempt) : Except Unit Unit :=
  if a.settles = true then Except.ok ()
  else if a.nameElemExists = true then Except.ok ()
  else Except.error ()

/-- Second (final) attempt of `select_date`: a failed option wait falls
off the end of the loop, returning Python `None`; an exception from
`wait_for_date` is re-raised because `attempt == 1`. -/
def selectDateSecond (env : Nat → DateAttempt) : Except Unit Unit :=
  if (env 1).optionsAttach = false then Except.ok ()
  else
    match wait_for_date (env 1) with
    | Except.ok _ => Except.ok ()
    | Except.error e => Except.error e

/-- Model of `select_date` with its two attempts: a failed option wait or
an exception from `wait_for_date` on the first attempt falls through to
the second attempt. -/
def select_date (env : Nat → DateAttempt) : Except Unit Unit :=
  if (env 0).optionsAttach = false then selectDateSecond env
  else
    match wait_for_date (env 0) with
    | Except.ok _ => Except.ok ()
    | Except.error _ => selectDateSecond env

/-! ## SessionOrchestrator (`scrape` in scraper.py) and period ordering
(`transform_data` in run_all.py) -/

/-- Fixed period vocabulary (`PERIODS` in scraper.py); the scraper never
reads period options from the DOM. -/
def PERIODS : List String := ["Breakfast", "Lunch", "Dinner"]

/-- One output record of the scrape (an element of `results`). -/
structure ScrapeEntry where
  date : String
  period : String
  sections : List MenuSection

/-- Concatenation-map over a list, used to model the nested append loops
of `scrape`. -/
def concatMapL {α β : Type} (f : α → List β) : List α → List β
  | [] => []
  | x :: xs => f x ++ concatMapL f xs

/-- Environment recording the outcome of every browser interaction that
`scrape` performs, keyed by date label and period label: whether
`select_date` returned without raising, whether the no-menu sentinel was
visible, the number of period option elements, the outcome of
`select_period_and_get_json` (exception, Python `None`, or a payload
string), and the outcome of `json.loads` plus `payload.get("items", [])`
on a payload string (`none` models a parse exception). -/
structure ScrapeEnv where
  selectDateOk : String → Bool
  noMenu : String → Bool
  periodOptionsCount : String → Nat
  selectPeriodR : String → String → Except Unit (Option String)
  parseItems : String → Option (List RawItem)

/-- The per-period body of `scrape`: every failure (exception from period
selection, empty or missing payload, JSON parse failure) is caught by the
surrounding `try` and yields no entry; success appends exactly one entry
built through `build_sections`. -/
def processPeriod (env : ScrapeEnv) (d p : String) : List ScrapeEntry :=
  match env.selectPeriodR d p with
  | Except.error _ => []
  | Except.ok none => []
  | Except.ok (some s) =>
    if s = "" then []
    else
      match env.parseItems s with
      | none => []
      | some its => [⟨d, p, build_sections its⟩]

/-- The per-date body of `scrape`: a date whose selection raised, whose
no-menu sentinel is visible, or whose period option list is empty is
skipped; otherwise the three fixed periods are processed in order. -/
def processDate (env : ScrapeEnv) (d : String) : List ScrapeEntry :=
  if env.selectDateOk d = false then []
  else if env.noMenu d = true then []
  else if env.periodOptionsCount d = 0 then []
  else concatMapL (processPeriod env d) PERIODS

/-- Model of `scrape`: filter the raw date labels through
`collect_date_options`, then process each surviving date in order,
appending entries to `results`. -/
def scrape (env : ScrapeEnv) (today : PDate) (rawLabels : List String) : List ScrapeEntry :=
  concatMapL (processDate env) (collect_date_options today rawLabels)

/-- Period rank from `transform_data` in run_all.py
(`period_order.get(x, 99)`). -/
def period_order (p : String) : Nat :=
  if p = "Breakfast" then 0
  else if p = "Lunch" then 1
  else if p = "Dinner" then 2
  else 99

/-- Stable insert for the model of Python `sorted(..., key=...)`: the new
element goes before the first resident with a strictly larger or equal
key is wrong for stability, so it goes before the first resident whose
key is not strictly smaller; residents keep their relative order. -/
def insertByKey (k : String → Nat) (x : String) : List String → List String
  | [] => [x]
  | y :: ys => if k y < k x then y :: insertByKey k x ys else x :: y :: ys

/-- Model of `sorted(info["meals_map"].keys(), key=lambda x:
period_order.get(x, 99))` from `transform_data`: Python `sorted` is a
stable sort by key, modeled as stable insertion sort. -/
def sorted_periods (ps : List String) : List String :=
  ps.foldr (insertByKey period_order) []

/-! ## Concrete environments used by the closed evaluation theorems -/

/-- Five upcoming date labels for the failure-isolation scenario. -/
def c4Labels : List String :=
  ["Monday, December 1", "Tuesday, December 2", "Wednesday, December 3",
   "Thursday, December 4", "Friday, December 5"]

/-- Fixed "today" for the failure-isolation scenario. -/
def c4Today : PDate := ⟨2025, 12, 1⟩

/-- A well-formed recipe payload item. -/
def c4Item : RawItem := ⟨"recipe", some "g", none, some "Item"⟩

/-- Environment in which selecting the third of the five dates raises and
everything else succeeds. -/
def c4EnvA : ScrapeEnv where
  selectDateOk := fun d => !(d == "Wednesday, December 3")
  noMenu := fun _ => false
  periodOptionsCount := fun _ => 1
  selectPeriodR := fun _ _ => Except.ok (some "P")
  parseItems := fun _ => some [c4Item]

/-- Environment with three period-scoped failures: period selection raises
for one (date, period), returns an empty payload for another, and the
payload of a third fails to parse as JSON. -/
def c4EnvB : ScrapeEnv where
  selectDateOk := fun _ => true
  noMenu := fun _ => false
  periodOptionsCount := fun _ => 1
  selectPeriodR := fun d p =>
    if d == "Tuesday, December 2" && p == "Dinner" then Except.error ()
    else if d == "Thursday, December 4" && p == "Breakfast" then Except.ok none
    else Except.ok (some (d ++ "|" ++ p))
  parseItems := fun s => if s == "Monday, December 1|Lunch" then none else some [c4Item]

/-- Period-selection environment for the final-attempt NameError path: the
option is missed on the first two attempts, found on the third, the wait
times out, and the displayed name does not match the target. -/
def c8Env : Nat → PeriodAttempt :=
  fun i => if i < 2 then ⟨false, false, "", ""⟩ else ⟨true, false, "Breakfast", "Z"⟩

/-- Fully succeeding orchestrator environment. -/
def c9Env : ScrapeEnv where
  selectDateOk := fun _ => true
  noMenu := fun _ => false
  periodOptionsCount := fun _ => 1
  selectPeriodR := fun _ _ => Except.ok (some "Q")
  parseItems := fun _ => some [⟨"recipe", some "h", none, some "Dish"⟩]

/-! ## Lemmas about the date filter -/

/-- An unparseable label is not kept. -/
lemma keepLabel_of_none {today : PDate} {l : String} (h : resolveLabel today l = none) :
    keepLabel today l = false := by
  simp [keepLabel, h]

/-- A parseable label is kept according to the date comparison. -/
lemma keepLabel_of_some {today : PDate} {l : String} {dt : PDate}
    (h : resolveLabel today l = some dt) : keepLabel today l = dateLe today dt := by
  simp [keepLabel, h]

/-- The accumulating loop of `collect_date_options` computes a filter. -/
lemma cdoLoop_eq (today : PDate) (ls : List String) :
    ∀ acc, cdoLoop today ls acc = acc ++ ls.filter (keepLabel today) := by
  induction ls with
  | nil => intro acc; simp [cdoLoop]
  | cons l ls ih =>
    intro acc
    cases h : resolveLabel today l with
    | none => simp [cdoLoop, h, ih, List.filter_cons, keepLabel_of_none h]
    | some dt =>
      by_cases hd : dateLe today dt = true
      · simp [cdoLoop, h, hd, ih, List.filter_cons, keepLabel_of_some h]
      · simp [cdoLoop, h, hd, ih, List.filter_cons, keepLabel_of_some h,
          Bool.eq_false_iff.mpr hd]

/-- `collect_date_options` is the filter of the labels, capped. -/
lemma collect_eq_filter_take (today : PDate) (labels : List String) :
    collect_date_options today labels = (labels.filter (keepLabel today)).take MAX_DATES := by
  simp [collect_date_options, cdoLoop_eq]

/-- The kept-date list never exceeds the cap. -/
lemma collect_length_le (today : PDate) (labels : List String) :
    (collect_date_options today labels).length ≤ MAX_DATES := by
  rw [collect_eq_filter_take]
  exact List.length_take_le MAX_DATES (labels.filter (keepLabel today))

/-- The kept-date list preserves the input order. -/
lemma collect_sublist (today : PDate) (labels : List String) :
    (collect_date_options today labels).Sublist labels := by
  rw [collect_eq_filter_take]
  exact (List.take_sublist _ _).trans (List.filter_sublist _)

/-- Every kept label parses to a date not before today. -/
lemma mem_collect_resolve (today : PDate) (labels : List String) (l : String)
    (h : l ∈ collect_date_options today labels) :
    ∃ dt, resolveLabel today l = some dt ∧ dateLe today dt = true := by
  rw [collect_eq_filter_take] at h
  have hf := (List.take_sublist _ _).subset h
  rw [List.mem_filter] at hf
  have hk := hf.2
  unfold keepLabel at hk
  cases hr : resolveLabel today l with
  | none => rw [hr] at hk; simp at hk
  | some dt => rw [hr] at hk; exact ⟨dt, rfl, hk⟩

/-- C5: the date filter of `collect_date_options` keeps a parseable label
"Weekday, Month Day" exactly when its resolved calendar date (current
year, wrapped by one year across a December/January boundary) is at least
today; it returns at most `MAX_DATES` labels preserving the input order,
and an unparseable label is dropped without an exception reaching the
caller (the model is a total function and unparseable labels simply never
appear in the output).  The closed instance is the worked example of the
specification. -/
theorem collect_date_options_spec :
    (∀ today labels,
        collect_date_options today labels = (labels.filter (keepLabel today)).take MAX_DATES)
    ∧ (∀ today labels, (collect_date_options today labels).length ≤ MAX_DATES)
    ∧ (∀ today labels, (collect_date_options today labels).Sublist labels)
    ∧ (∀ today labels l, l ∈ collect_date_options today labels →
        ∃ dt, resolveLabel today l = some dt ∧ dateLe today dt = true)
    ∧ (∀ today labels l, resolveLabel today l = none → l ∉ collect_date_options today labels)
    ∧ collect_date_options ⟨2024, 12, 10⟩
        ["Monday, December 9", "Tuesday, December 10", "Wednesday, December 11",
         "Thursday, January 2"] =
      ["Tuesday, December 10", "Wednesday, December 11", "Thursday, January 2"] := by
  refine ⟨collect_eq_filter_take, collect_length_le, collect_sublist,
    mem_collect_resolve, ?_, by decide⟩
  intro today labels l hnone hmem
  obtain ⟨dt, hdt, _⟩ := mem_collect_resolve today labels l hmem
  rw [hnone] at hdt
  exact Option.noConfusion hdt

/-- Witness for `collect_date_options_spec` at a concrete input: the kept
label "Tuesday, December 10" indeed resolves to an upcoming date. -/
theorem collect_date_options_spec_witness :
    ∃ dt, resolveLabel ⟨2024, 12, 10⟩ "Tuesday, December 10" = some dt ∧
      dateLe ⟨2024, 12, 10⟩ dt = true :=
  collect_date_options_spec.2.2.2.1 ⟨2024, 12, 10⟩
    ["Monday, December 9", "Tuesday, December 10", "Wednesday, December 11",
     "Thursday, January 2"] "Tuesday, December 10" (by decide)

/-! ## Lemmas about the section builder -/

/-- Positional update preserves length. -/
lemma length_updateAt {α : Type} (f : α → α) :
    ∀ (n : Nat) (l : List α), (updateAt n f l).length = l.length := by
  intro n l
  induction l generalizing n with
  | nil => simp [updateAt]
  | cons x xs ih =>
    cases n with
    | zero => simp [updateAt]
    | succ m => simp [updateAt, ih]

/-- Item totals add over concatenation of accumulated sections. -/
lemma sumItemsA_append : ∀ (a b : List SecAcc), sumItemsA (a ++ b) = sumItemsA a + sumItemsA b := by
  intro a b
  induction a with
  | nil => simp [sumItemsA]
  | cons s ss ih => simp [sumItemsA, ih]; omega

/-- Appending one recipe name to a section within range raises the item
total by exactly one. -/
lemma sumItemsA_updateAt (name : String) :
    ∀ (i : Nat) (secs : List SecAcc), i < secs.length →
      sumItemsA (updateAt i (fun s => ⟨s.id, s.title, s.items ++ [name]⟩) secs) =
        sumItemsA secs + 1 := by
  intro i secs
  induction secs generalizing i with
  | nil => intro h; simp at h
  | cons s ss ih =>
    intro h
    cases i with
    | zero => simp [updateAt, sumItemsA]; omega
    | succ m =>
      simp only [updateAt, sumItemsA]
      rw [ih m (by simpa using h)]
      omega

/-- A successful guid lookup yields an index bounded like every entry of
the lookup table. -/
lemma bsFind_lt : ∀ (lk : List (Option String × Nat)) (g : Option String) (i n : Nat),
    (∀ p ∈ lk, p.2 < n) → bsFind lk g = some i → i < n := by
  intro lk
  induction lk with
  | nil => intro g i n _ h; simp [bsFind] at h
  | cons p ps ih =>
    intro g i n hall h
    obtain ⟨k, j⟩ := p
    simp only [bsFind] at h
    split at h
    · cases h; exact hall (k, i) (by simp)
    · exact ih g i n (fun q hq => hall q (by simp [hq])) h

/-- One step of the section-builder loop on a section item. -/
lemma bsLoop_step_section {it : RawItem} (its : List RawItem) (secs : List SecAcc)
    (lk : List (Option String × Nat)) (hs : isSectionType it.itemType = true) :
    bsLoop (it :: its) secs lk =
      bsLoop its (secs ++ [⟨it.sectionGuid, it.sectionName.getD "Section", []⟩])
        ((it.sectionGuid, secs.length) :: lk) := by
  simp [bsLoop, hs]

/-- One step of the section-builder loop on a recipe item whose guid is
bound. -/
lemma bsLoop_step_recipe_found {it : RawItem} (its : List RawItem) (secs : List SecAcc)
    (lk : List (Option String × Nat)) {i : Nat} (hs : ¬ isSectionType it.itemType = true)
    (hr : it.itemType = "recipe") (hf : bsFind lk it.sectionGuid = some i) :
    bsLoop (it :: its) secs lk =
      bsLoop its
        (updateAt i (fun s => ⟨s.id, s.title, s.items ++ [it.recipeName.getD "Untitled"]⟩) secs)
        lk := by
  simp [bsLoop, hr, hf, (by decide : isSectionType "recipe" = false)]

/-- One step of the section-builder loop on a recipe item whose guid is
unbound: the placeholder section is synthesized. -/
lemma bsLoop_step_recipe_new {it : RawItem} (its : List RawItem) (secs : List SecAcc)
    (lk : List (Option String × Nat)) (hs : ¬ isSectionType it.itemType = true)
    (hr : it.itemType = "recipe") (hf : bsFind lk it.sectionGuid = none) :
    bsLoop (it :: its) secs lk =
      bsLoop its (secs ++ [⟨it.sectionGuid, "Section", [it.recipeName.getD "Untitled"]⟩])
        ((it.sectionGuid, secs.length) :: lk) := by
  simp [bsLoop, hr, hf, (by decide : isSectionType "recipe" = false)]

/-- One step of the section-builder loop on an item of any other type. -/
lemma bsLoop_step_other {it : RawItem} (its : List RawItem) (secs : List SecAcc)
    (lk : List (Option String × Nat)) (hs : ¬ isSectionType it.itemType = true)
    (hr : ¬ it.itemType = "recipe") :
    bsLoop (it :: its) secs lk = bsLoop its secs lk := by
  simp [bsLoop, hs, hr]

/-- Extending the sections by one keeps every lookup index in range, as
does binding the fresh guid to the new position. -/
lemma bsInv_extend (g : Option String) (s : SecAcc) (secs : List SecAcc)
    (lk : List (Option String × Nat)) (hinv : ∀ p ∈ lk, p.2 < secs.length) :
    ∀ p ∈ ((g, secs.length) :: lk), p.2 < (secs ++ [s]).length := by
  intro p hp
  simp only [List.mem_cons] at hp
  rcases hp with rfl | hp
  · simp
  · have := hinv p hp
    simp only [List.length_append, List.length_cons, List.length_nil]
    omega

/-- The section-builder loop emits exactly one item string per recipe
item, provided every lookup index is in range (which holds for the real
initial state). -/
lemma bsLoop_sumItems :
    ∀ (items : List RawItem) (secs : List SecAcc) (lk : List (Option String × Nat)),
      (∀ p ∈ lk, p.2 < secs.length) →
      sumItemsA (bsLoop items secs lk) = sumItemsA secs + countRecipes items := by
  intro items
  induction items with
  | nil => intro secs lk _; simp [bsLoop, countRecipes]
  | cons it its ih =>
    intro secs lk hinv
    by_cases hs : isSectionType it.itemType = true
    · have hne : ¬ it.itemType = "recipe" := by
        intro he; rw [he] at hs; exact absurd hs (by decide)
      rw [bsLoop_step_section its secs lk hs,
        ih _ _ (bsInv_extend it.sectionGuid _ secs lk hinv), sumItemsA_append]
      simp [sumItemsA, countRecipes, hne]
    · by_cases hr : it.itemType = "recipe"
      · cases hf : bsFind lk it.sectionGuid with
        | some i =>
          have hi : i < secs.length := bsFind_lt lk it.sectionGuid i secs.length hinv hf
          have hinv2 : ∀ p ∈ lk,
              p.2 < (updateAt i
                (fun s => ⟨s.id, s.title, s.items ++ [it.recipeName.getD "Untitled"]⟩)
                secs).length := by
            intro p hp; rw [length_updateAt]; exact hinv p hp
          rw [bsLoop_step_recipe_found its secs lk hs hr hf, ih _ _ hinv2,
            sumItemsA_updateAt _ i secs hi]
          simp [countRecipes, hr]
          omega
        | none =>
          rw [bsLoop_step_recipe_new its secs lk hs hr hf,
            ih _ _ (bsInv_extend it.sectionGuid _ secs lk hinv), sumItemsA_append]
          simp [sumItemsA, countRecipes, hr]
          omega
      · rw [bsLoop_step_other its secs lk hs hr, ih secs lk hinv]
        simp [countRecipes, hr]

/-- Projecting away the guid preserves the item total. -/
lemma sumItems_map :
    ∀ secs : List SecAcc,
      sumItems (secs.map (fun s => (⟨s.title, s.items⟩ : MenuSection))) = sumItemsA secs := by
  intro secs
  induction secs with
  | nil => simp [sumItems, sumItemsA]
  | cons s ss ih => simp [sumItems, sumItemsA, ih]

/-- No recipe is ever dropped: `build_sections` emits exactly one item
string per recipe item of its input. -/
lemma build_sections_count (items : List RawItem) :
    sumItems (build_sections items) = countRecipes items := by
  unfold build_sections
  rw [sumItems_map]
  rw [bsLoop_sumItems items [] [] (by intro p hp; simp at hp)]
  simp [sumItemsA]

/-- The loop only grows the section list, by one per section item at
least. -/
lemma bsLoop_length_ge :
    ∀ (items : List RawItem) (secs : List SecAcc) (lk : List (Option String × Nat)),
      secs.length + countSectionItems items ≤ (bsLoop items secs lk).length := by
  intro items
  induction items with
  | nil => intro secs lk; simp [bsLoop, countSectionItems]
  | cons it its ih =>
    intro secs lk
    by_cases hs : isSectionType it.itemType = true
    · rw [bsLoop_step_section its secs lk hs]
      have := ih (secs ++ [⟨it.sectionGuid, it.sectionName.getD "Section", []⟩])
        ((it.sectionGuid, secs.length) :: lk)
      simp only [List.length_append, List.length_cons, List.length_nil] at this
      simp [countSectionItems, hs]
      omega
    · by_cases hr : it.itemType = "recipe"
      · cases hf : bsFind lk it.sectionGuid with
        | some i =>
          rw [bsLoop_step_recipe_found its secs lk hs hr hf]
          have := ih (updateAt i
            (fun s => ⟨s.id, s.title, s.items ++ [it.recipeName.getD "Untitled"]⟩) secs) lk
          rw [length_updateAt] at this
          simp [countSectionItems, hs]
          omega
        | none =>
          rw [bsLoop_step_recipe_new its secs lk hs hr hf]
          have := ih (secs ++ [⟨it.sectionGuid, "Section", [it.recipeName.getD "Untitled"]⟩])
            ((it.sectionGuid, secs.length) :: lk)
          simp only [List.length_append, List.length_cons, List.length_nil] at this
          simp [countSectionItems, hs]
          omega
      · rw [bsLoop_step_other its secs lk hs hr]
        have := ih secs lk
        simp [countSectionItems, hs]
        omega

/-- No section item is ever dropped: `build_sections` emits at least one
section per section item of its input. -/
lemma build_sections_length_ge (items : List RawItem) :
    countSectionItems items ≤ (build_sections items).length := by
  unfold build_sections
  rw [List.length_map]
  have := bsLoop_length_ge items [] []
  simpa using this

/-- C6: `build_sections` emits sections in first-appearance order,
attaches each recipe to the section bound to its guid, synthesizes a
placeholder section titled "Section" for a recipe whose guid was never
declared, and drops no recipe: on the specified input the output is
exactly the specified two sections, and in general the output carries one
item string per recipe item. -/
theorem build_sections_spec :
    build_sections
        [⟨"section", some "A", some "Grill", none⟩,
         ⟨"recipe", some "A", none, some "Burger"⟩,
         ⟨"recipe", some "B", none, some "Soup"⟩] =
      [⟨"Grill", ["Burger"]⟩, ⟨"Section", ["Soup"]⟩]
    ∧ ∀ items : List RawItem, sumItems (build_sections items) = countRecipes items :=
  ⟨by decide, build_sections_count⟩

/-- C10: a section item with no `sectionName` key yields a section titled
"Section" and a recipe item with no `recipeName` key contributes the
string "Untitled"; no item of either kind is dropped for a missing name
(every section item yields a section, every recipe item yields exactly
one item string). -/
theorem build_sections_missing_names :
    build_sections [⟨"section", some "g", none, none⟩, ⟨"recipe", some "g", none, none⟩] =
      [⟨"Section", ["Untitled"]⟩]
    ∧ (∀ items : List RawItem, countSectionItems items ≤ (build_sections items).length)
    ∧ (∀ items : List RawItem, sumItems (build_sections items) = countRecipes items) :=
  ⟨by decide, build_sections_length_ge, build_sections_count⟩

/-! ## Lemmas about the payload watcher -/

/-- Pointwise characterization of the polled predicate: the element must
be attached, the visible name must equal the target, and the attribute
must be non-empty; the previous payload plays no role. -/
lemma updateSettled_iff (t old : String) (st : PollState) :
    updateSettled t old st = true ↔
      st.elPresent = true ∧ st.name = some t ∧ st.attr ≠ "" := by
  unfold updateSettled
  by_cases h : st.elPresent = false
  · simp [h]
  · simp only [Bool.not_eq_false] at h
    simp [h]

/-- C1 (amended): the settlement wait succeeds exactly when some polled
state has the payload host attached, the visible selector name equal to
the target, and a non-empty payload attribute; a run in which the payload
attribute stays empty times out, and a run in which the label never
matches times out, but a change of payload relative to `previousPayload`
is not required (the polled predicate binds `oldJson` and never uses
it). -/
theorem awaitUpdate_settles_iff (t old : String) (trace : List PollState) :
    (awaitUpdate t old trace = true ↔
      ∃ st ∈ trace, st.elPresent = true ∧ st.name = some t ∧ st.attr ≠ "")
    ∧ ((∀ st ∈ trace, st.attr = "") → awaitUpdate t old trace = false)
    ∧ ((∀ st ∈ trace, st.name ≠ some t) → awaitUpdate t old trace = false) := by
  have hiff : awaitUpdate t old trace = true ↔
      ∃ st ∈ trace, st.elPresent = true ∧ st.name = some t ∧ st.attr ≠ "" := by
    unfold awaitUpdate
    rw [List.any_eq_true]
    constructor
    · rintro ⟨st, hmem, hp⟩
      exact ⟨st, hmem, (updateSettled_iff t old st).mp hp⟩
    · rintro ⟨st, hmem, hp⟩
      exact ⟨st, hmem, (updateSettled_iff t old st).mpr hp⟩
  refine ⟨hiff, ?_, ?_⟩
  · intro h
    cases hb : awaitUpdate t old trace
    · rfl
    · obtain ⟨st, hmem, _, _, ha⟩ := hiff.mp hb
      exact absurd (h st hmem) ha
  · intro h
    cases hb : awaitUpdate t old trace
    · rfl
    · obtain ⟨st, hmem, _, hn, _⟩ := hiff.mp hb
      exact absurd hn (h st hmem)

/-- Witness for `awaitUpdate_settles_iff`: a state with a matching label
and a fresh non-empty payload settles. -/
theorem awaitUpdate_settles_iff_witness :
    awaitUpdate "Lunch" "old" [⟨some "Lunch", true, "fresh"⟩] = true :=
  (awaitUpdate_settles_iff "Lunch" "old" [⟨some "Lunch", true, "fresh"⟩]).1.mpr
    ⟨⟨some "Lunch", true, "fresh"⟩, by simp, rfl, rfl, by decide⟩

/-- C1 counterexample: the wait reports success for a polled state whose
payload attribute "J1" is exactly the `previousPayload` "J1" read before
the click — a label match with an unchanged non-empty payload is accepted,
so success does not require the payload to differ from
`previousPayload`. -/
theorem awaitUpdate_unchanged_payload_accepted :
    awaitUpdate "Lunch" "J1" [⟨some "Lunch", true, "J1"⟩] = true := by decide

/-! ## Lemmas about period and date selection -/

/-- C2 counterexample: with the settlement wait timing out on every
attempt (`settles` is false throughout, so every attempt hits the timeout
handler) and the visible period name already equal to the requested
period, `select_period_and_get_json` returns the current payload
attribute on the very first attempt instead of reporting the timeout —
the "already on target" special case the claim denies. -/
theorem select_period_optimistic_fallback_returns :
    select_period_and_get_json (fun _ => ⟨true, false, "Lunch", "J"⟩) "Lunch" =
      Except.ok (some "J") := rfl

/-- C2 (amended): when the settlement wait times out on an attempt, the
code first reads the visible period name; if it equals the target the
function returns the current payload attribute immediately (on any
attempt, including the first), and only when the name differs on the
final attempt does it raise — and then it raises the NameError of the
undefined `current_label`, not the timeout. -/
theorem select_period_timeout_behavior (env : Nat → PeriodAttempt) (t : String)
    (hf : ∀ i, (env i).found = true) (hs : ∀ i, (env i).settles = false) :
    ((env 0).currName = t →
      select_period_and_get_json env t = Except.ok (some (env 0).payload))
    ∧ ((∀ i, (env i).currName ≠ t) →
      select_period_and_get_json env t = Except.error PErr.nameError) := by
  constructor
  · intro h
    simp [select_period_and_get_json, spLoop, hf 0, hs 0, h]
  · intro h
    simp [select_period_and_get_json, spLoop, hf 0, hf 1, hf 2, hs 0, hs 1, hs 2,
      h 0, h 1, h 2]

/-- Witness for `select_period_timeout_behavior`: a concrete all-timeout
environment whose displayed name matches the target yields the optimistic
payload return. -/
theorem select_period_timeout_behavior_witness :
    select_period_and_get_json (fun _ => ⟨true, false, "Dinner", "X"⟩) "Dinner" =
      Except.ok (some "X") :=
  (select_period_timeout_behavior (fun _ => ⟨true, false, "Dinner", "X"⟩) "Dinner"
    (fun _ => rfl) (fun _ => rfl)).1 rfl

/-- C8: on the final attempt, when the settlement wait has timed out and
the displayed period name does not equal the target, the reference to the
undefined variable `current_label` raises NameError; the "Already on
target period" return guarded by that comparison can never execute
because evaluating its condition is itself what raises. -/
theorem select_period_final_attempt_name_error (env : Nat → PeriodAttempt) (t : String)
    (h0 : (env 0).found = false ∨ ((env 0).settles = false ∧ (env 0).currName ≠ t))
    (h1 : (env 1).found = false ∨ ((env 1).settles = false ∧ (env 1).currName ≠ t))
    (h2f : (env 2).found = true) (h2s : (env 2).settles = false)
    (h2n : (env 2).currName ≠ t) :
    select_period_and_get_json env t = Except.error PErr.nameError := by
  rcases h0 with h0f | ⟨h0s, h0n⟩
  · rcases h1 with h1f | ⟨h1s, h1n⟩
    · simp [select_period_and_get_json, spLoop, h0f, h1f, h2f, h2s, h2n]
    · simp [select_period_and_get_json, spLoop, h0f, h1s, h1n, h2f, h2s, h2n]
  · rcases h1 with h1f | ⟨h1s, h1n⟩
    · simp [select_period_and_get_json, spLoop, h0s, h0n, h1f, h2f, h2s, h2n]
    · simp [select_period_and_get_json, spLoop, h0s, h0n, h1s, h1n, h2f, h2s, h2n]

/-- Witness for `select_period_final_attempt_name_error` at the concrete
environment `c8Env`. -/
theorem select_period_final_attempt_name_error_witness :
    select_period_and_get_json c8Env "Lunch" = Except.error PErr.nameError :=
  select_period_final_attempt_name_error c8Env "Lunch" (Or.inl rfl) (Or.inl rfl)
    rfl rfl (by decide)

/-- The timeout of the date-label wait is caught inside `wait_for_date`
itself: whenever the diagnostic read of the name element succeeds, the
call returns normally even though the label never settled. -/
lemma wait_for_date_ok (a : DateAttempt) (h : a.nameElemExists = true) :
    wait_for_date a = Except.ok () := by
  unfold wait_for_date
  by_cases hs : a.settles = true
  · simp [hs]
  · simp [hs, h]

/-- C3: as long as the `.k10-menu-date-selector__name` element exists,
`select_date` returns success no matter what happened — in particular for
a date whose displayed label never settles to the target on either
attempt, because `wait_for_date` swallows its own timeout, so the
retry-then-raise logic of `select_date` never fires and the orchestrator
treats the date as successfully selected. -/
theorem select_date_never_settles_reports_success (env : Nat → DateAttempt)
    (h : ∀ i, (env i).nameElemExists = true) :
    select_date env = Except.ok () := by
  unfold select_date selectDateSecond
  by_cases h0 : (env 0).optionsAttach = false
  · by_cases h1 : (env 1).optionsAttach = false
    · simp [h0, h1]
    · simp [h0, h1, wait_for_date_ok (env 1) (h 1)]
  · simp [h0, wait_for_date_ok (env 0) (h 0)]

/-- Witness for `select_date_never_settles_reports_success`: both attempts
open the panel and click the option, the label never settles, the name
element exists — and the function still reports success. -/
theorem select_date_never_settles_reports_success_witness :
    select_date (fun _ => ⟨true, true, false, true⟩) = Except.ok () :=
  select_date_never_settles_reports_success (fun _ => ⟨true, true, false, true⟩)
    (fun _ => rfl)

/-! ## Lemmas about the orchestrator -/

/-- Membership in a concatenation-map. -/
lemma mem_concatMapL {α β : Type} (f : α → List β) :
    ∀ (l : List α) (b : β), b ∈ concatMapL f l ↔ ∃ a ∈ l, b ∈ f a := by
  intro l b
  induction l with
  | nil => simp [concatMapL]
  | cons x xs ih => simp [concatMapL, ih]

/-- The per-period body yields nothing or exactly one entry carrying its
own date and period. -/
lemma processPeriod_shape (env : ScrapeEnv) (d p : String) :
    processPeriod env d p = [] ∨
      ∃ e : ScrapeEntry, processPeriod env d p = [e] ∧ e.date = d ∧ e.period = p := by
  cases hsp : env.selectPeriodR d p with
  | error e => left; simp [processPeriod, hsp]
  | ok o =>
    cases o with
    | none => left; simp [processPeriod, hsp]
    | some s =>
      by_cases hs : s = ""
      · left; simp [processPeriod, hsp, hs]
      · cases hp : env.parseItems s with
        | none => left; simp [processPeriod, hsp, hs, hp]
        | some its =>
          right
          exact ⟨⟨d, p, build_sections its⟩, by simp [processPeriod, hsp, hs, hp], rfl, rfl⟩

/-- The per-period body yields at most one entry. -/
lemma length_processPeriod_le (env : ScrapeEnv) (d p : String) :
    (processPeriod env d p).length ≤ 1 := by
  rcases processPeriod_shape env d p with h | ⟨e, h, _, _⟩ <;> simp [h]

/-- The periods of the entries of one date are a sublist of the canonical
period list they are enumerated from. -/
lemma map_period_concatMap_sublist (env : ScrapeEnv) (d : String) :
    ∀ ps : List String,
      ((concatMapL (processPeriod env d) ps).map (fun e => e.period)).Sublist ps := by
  intro ps
  induction ps with
  | nil => simp [concatMapL]
  | cons p ps ih =>
    simp only [concatMapL, List.map_append]
    rcases processPeriod_shape env d p with h | ⟨e, he, _, hp⟩
    · rw [h]; simpa using ih.cons p
    · rw [he]; simp only [List.map_cons, List.map_nil, List.singleton_append, hp]
      exact ih.cons₂ p

/-- The periods of one date are a sublist of `PERIODS`. -/
lemma processDate_map_period_sublist (env : ScrapeEnv) (d : String) :
    ((processDate env d).map (fun e => e.period)).Sublist PERIODS := by
  unfold processDate
  split
  · simp
  · split
    · simp
    · split
      · simp
      · exact map_period_concatMap_sublist env d PERIODS

/-- Every entry of one date carries that date and a canonical period. -/
lemma mem_processDate (env : ScrapeEnv) (d : String) (e : ScrapeEntry)
    (h : e ∈ processDate env d) : e.date = d ∧ e.period ∈ PERIODS := by
  unfold processDate at h
  split at h
  · simp at h
  · split at h
    · simp at h
    · split at h
      · simp at h
      · rw [mem_concatMapL] at h
        obtain ⟨p, hp, he⟩ := h
        rcases processPeriod_shape env d p with h0 | ⟨e2, he2, hd2, hp2⟩
        · rw [h0] at he; simp at he
        · rw [he2] at he
          simp only [List.mem_singleton] at he
          subst he
          exact ⟨hd2, hp2 ▸ hp⟩

/-- A date contributes at most three entries. -/
lemma length_processDate_le (env : ScrapeEnv) (d : String) :
    (processDate env d).length ≤ 3 := by
  unfold processDate
  split
  · simp
  · split
    · simp
    · split
      · simp
      · simp only [concatMapL, PERIODS, List.length_append, List.length_nil]
        have h1 := length_processPeriod_le env d "Breakfast"
        have h2 := length_processPeriod_le env d "Lunch"
        have h3 := length_processPeriod_le env d "Dinner"
        omega

/-- Length bound for a concatenation-map with a uniform per-element
bound. -/
lemma length_concatMapL_le {α β : Type} (f : α → List β) (k : Nat) :
    ∀ l : List α, (∀ a ∈ l, (f a).length ≤ k) →
      (concatMapL f l).length ≤ k * l.length := by
  intro l
  induction l with
  | nil => intro _; simp [concatMapL]
  | cons x xs ih =>
    intro h
    simp only [concatMapL, List.length_append, List.length_cons, Nat.mul_succ]
    have hx := h x (by simp)
    have hxs := ih (fun a ha => h a (by simp [ha]))
    omega

/-- The whole run never exceeds three entries per kept date. -/
lemma length_scrape_le (env : ScrapeEnv) (today : PDate) (labels : List String) :
    (scrape env today labels).length ≤ 3 * MAX_DATES := by
  unfold scrape
  have h1 := length_concatMapL_le (processDate env) 3 (collect_date_options today labels)
    (fun d _ => length_processDate_le env d)
  have h2 := collect_length_le today labels
  have h3 : 3 * (collect_date_options today labels).length ≤ 3 * MAX_DATES :=
    Nat.mul_le_mul_left 3 h2
  omega

/-- With pairwise-distinct kept dates, no two entries of the run agree on
both date and period. -/
lemma scrape_pairwise_aux (env : ScrapeEnv) :
    ∀ dates : List String, dates.Nodup →
      (concatMapL (processDate env) dates).Pairwise
        (fun e1 e2 : ScrapeEntry => e1.date ≠ e2.date ∨ e1.period ≠ e2.period) := by
  intro dates
  induction dates with
  | nil => intro _; simp [concatMapL]
  | cons d ds ih =>
    intro hnd
    rw [List.nodup_cons] at hnd
    obtain ⟨hd, hds⟩ := hnd
    simp only [concatMapL]
    rw [List.pairwise_append]
    refine ⟨?_, ih hds, ?_⟩
    · have hsub := processDate_map_period_sublist env d
      have hper : PERIODS.Nodup := by decide
      have hnodup : ((processDate env d).map (fun e => e.period)).Nodup :=
        hper.sublist hsub
      have hpw := List.pairwise_map.mp hnodup
      exact hpw.imp (fun h => Or.inr h)
    · intro e1 h1 e2 h2
      have hd1 : e1.date = d := (mem_processDate env d e1 h1).1
      rw [mem_concatMapL] at h2
      obtain ⟨d2, hd2mem, he2⟩ := h2
      have hd2 : e2.date = d2 := (mem_processDate env d2 e2 he2).1
      left
      rw [hd1, hd2]
      intro heq
      exact hd (heq ▸ hd2mem)

/-- C9 (amended): every entry of the run has its period drawn from the
fixed three-element `PERIODS` vocabulary (the scraper never reads period
options from the DOM, so no fourth label can appear) and its date from
the filtered date list, and the run has at most `3 * MAX_DATES = 30`
entries; when the kept date labels are pairwise distinct, no two entries
agree on both date and period.  Duplicate DOM date labels survive the
filter and are scraped once per occurrence, so distinctness of the kept
labels is a genuine hypothesis. -/
theorem scrape_entry_invariants (env : ScrapeEnv) (today : PDate) (labels : List String) :
    (∀ e ∈ scrape env today labels,
      e.period ∈ PERIODS ∧ e.date ∈ collect_date_options today labels)
    ∧ (scrape env today labels).length ≤ 3 * MAX_DATES
    ∧ ((collect_date_options today labels).Nodup →
        (scrape env today labels).Pairwise
          (fun e1 e2 => e1.date ≠ e2.date ∨ e1.period ≠ e2.period)) := by
  refine ⟨?_, length_scrape_le env today labels, fun h => scrape_pairwise_aux env _ h⟩
  intro e he
  unfold scrape at he
  rw [mem_concatMapL] at he
  obtain ⟨d, hd, hed⟩ := he
  obtain ⟨h1, h2⟩ := mem_processDate env d e hed
  exact ⟨h2, h1 ▸ hd⟩

/-- Witness for `scrape_entry_invariants`: the single-date all-success run
satisfies the pairwise distinctness conclusion. -/
theorem scrape_entry_invariants_witness :
    (scrape c9Env ⟨2025, 12, 1⟩ ["Monday, December 1"]).Pairwise
      (fun e1 e2 => e1.date ≠ e2.date ∨ e1.period ≠ e2.period) :=
  (scrape_entry_invariants c9Env ⟨2025, 12, 1⟩ ["Monday, December 1"]).2.2 (by decide)

/-- C9 counterexample: when the DOM date options contain the same label
twice, both occurrences survive the filter and the run emits the pair
("Monday, December 1", "Breakfast") twice — more than one entry per
(date, period) pair. -/
theorem scrape_duplicate_date_pair :
    ((scrape c9Env ⟨2025, 12, 1⟩ ["Monday, December 1", "Monday, December 1"]).map
        (fun e => (e.date, e.period))) =
      [("Monday, December 1", "Breakfast"), ("Monday, December 1", "Lunch"),
       ("Monday, December 1", "Dinner"), ("Monday, December 1", "Breakfast"),
       ("Monday, December 1", "Lunch"), ("Monday, December 1", "Dinner")] := by decide

/-- C4: date- and period-scoped failures are swallowed locally and never
abort the run.  In the first scenario selecting the third of five dates
raises after retries and the run still contains all three periods of
dates 1, 2, 4 and 5.  In the second scenario one period selection raises,
one returns an empty payload, and one payload fails to parse as JSON;
exactly those three (date, period) entries are missing and every other
entry of every date is present. -/
theorem scrape_failure_isolation :
    (scrape c4EnvA c4Today c4Labels).map (fun e => (e.date, e.period)) =
      [("Monday, December 1", "Breakfast"), ("Monday, December 1", "Lunch"),
       ("Monday, December 1", "Dinner"),
       ("Tuesday, December 2", "Breakfast"), ("Tuesday, December 2", "Lunch"),
       ("Tuesday, December 2", "Dinner"),
       ("Thursday, December 4", "Breakfast"), ("Thursday, December 4", "Lunch"),
       ("Thursday, December 4", "Dinner"),
       ("Friday, December 5", "Breakfast"), ("Friday, December 5", "Lunch"),
       ("Friday, December 5", "Dinner")]
    ∧ (scrape c4EnvB c4Today c4Labels).map (fun e => (e.date, e.period)) =
      [("Monday, December 1", "Breakfast"), ("Monday, December 1", "Dinner"),
       ("Tuesday, December 2", "Breakfast"), ("Tuesday, December 2", "Lunch"),
       ("Wednesday, December 3", "Breakfast"), ("Wednesday, December 3", "Lunch"),
       ("Wednesday, December 3", "Dinner"),
       ("Thursday, December 4", "Lunch"), ("Thursday, December 4", "Dinner"),
       ("Friday, December 5", "Breakfast"), ("Friday, December 5", "Lunch"),
       ("Friday, December 5", "Dinner")] :=
  ⟨by decide, by decide⟩

/-! ## Lemmas about the canonical period ordering -/

/-- Stable insertion is a permutation. -/
lemma insertByKey_perm (k : String → Nat) (x : String) :
    ∀ l, (insertByKey k x l).Perm (x :: l) := by
  intro l
  induction l with
  | nil => simp [insertByKey]
  | cons y ys ih =>
    unfold insertByKey
    by_cases h : k y < k x
    · rw [if_pos h]
      exact (ih.cons y).trans (List.Perm.swap x y ys)
    · rw [if_neg h]

/-- Stable insertion preserves sortedness by the key. -/
lemma insertByKey_pairwise (k : String → Nat) (x : String) :
    ∀ l, l.Pairwise (fun a b => k a ≤ k b) →
      (insertByKey k x l).Pairwise (fun a b => k a ≤ k b) := by
  intro l
  induction l with
  | nil => intro _; simp [insertByKey]
  | cons y ys ih =>
    intro hp
    rw [List.pairwise_cons] at hp
    obtain ⟨hy, hys⟩ := hp
    unfold insertByKey
    by_cases h : k y < k x
    · rw [if_pos h, List.pairwise_cons]
      refine ⟨?_, ih hys⟩
      intro z hz
      have hz2 : z = x ∨ z ∈ ys := by
        have := (insertByKey_perm k x ys).mem_iff.mp hz
        simpa using this
      rcases hz2 with rfl | hzys
      · exact Nat.le_of_lt h
      · exact hy z hzys
    · rw [if_neg h, List.pairwise_cons]
      refine ⟨?_, List.pairwise_cons.mpr ⟨hy, hys⟩⟩
      intro z hz
      simp only [List.mem_cons] at hz
      rcases hz with rfl | hzys
      · exact Nat.le_of_not_lt h
      · exact Nat.le_trans (Nat.le_of_not_lt h) (hy z hzys)

/-- Inserting an element whose key is not 99 leaves the key-99 filter
untouched. -/
lemma insertByKey_filter_ne (k : String → Nat) (x : String) (hx : ¬ k x = 99) :
    ∀ l, (insertByKey k x l).filter (fun y => k y == 99) =
      l.filter (fun y => k y == 99) := by
  intro l
  induction l with
  | nil => simp [insertByKey, List.filter_cons, hx]
  | cons y ys ih =>
    unfold insertByKey
    by_cases h : k y < k x
    · rw [if_pos h]
      simp [List.filter_cons, ih]
    · rw [if_neg h]
      simp [List.filter_cons, hx]

/-- Inserting a key-99 element puts it in front of every resident key-99
element in the filter (it was earlier in the input, being processed
later by the right fold). -/
lemma insertByKey_filter_99 (k : String → Nat) (x : String) (hx : k x = 99) :
    ∀ l, (insertByKey k x l).filter (fun y => k y == 99) =
      x :: l.filter (fun y => k y == 99) := by
  intro l
  induction l with
  | nil => simp [insertByKey, List.filter_cons, hx]
  | cons y ys ih =>
    unfold insertByKey
    by_cases h : k y < k x
    · rw [if_pos h]
      have hy99 : ¬ k y = 99 := by omega
      simp [List.filter_cons, hy99, ih]
    · rw [if_neg h]
      simp [List.filter_cons, hx]

/-- The stable sort is a permutation of its input. -/
lemma sorted_periods_perm : ∀ ps, (sorted_periods ps).Perm ps := by
  intro ps
  induction ps with
  | nil => simp [sorted_periods]
  | cons p ps ih =>
    show (insertByKey period_order p (sorted_periods ps)).Perm (p :: ps)
    exact (insertByKey_perm period_order p (sorted_periods ps)).trans (ih.cons p)

/-- The stable sort is sorted by the period rank. -/
lemma sorted_periods_pairwise :
    ∀ ps, (sorted_periods ps).Pairwise (fun a b => period_order a ≤ period_order b) := by
  intro ps
  induction ps with
  | nil => simp [sorted_periods]
  | cons p ps ih =>
    show (insertByKey period_order p (sorted_periods ps)).Pairwise _
    exact insertByKey_pairwise period_order p (sorted_periods ps) ih

/-- The stable sort preserves the relative order of the unrecognized
(rank-99) labels. -/
lemma sorted_periods_filter :
    ∀ ps, (sorted_periods ps).filter (fun p => period_order p == 99) =
      ps.filter (fun p => period_order p == 99) := by
  intro ps
  induction ps with
  | nil => rfl
  | cons p ps ih =>
    show (insertByKey period_order p (sorted_periods ps)).filter _ = _
    by_cases hp : period_order p = 99
    · rw [insertByKey_filter_99 period_order p hp, ih]
      simp [List.filter_cons, hp]
    · rw [insertByKey_filter_ne period_order p hp, ih]
      simp [List.filter_cons, hp]

/-- C7: the emitted periods follow the fixed canonical order, not the DOM
order: the example DOM order is re-sorted to Breakfast, Lunch, Dinner;
the sort is a permutation, sorted by the canonical rank in which every
unrecognized label ranks 99 and therefore after all known ones, with the
relative order among the unrecognized labels preserved; and the scraper
itself emits each date's entries with periods in (a sublist of) the fixed
`PERIODS` order, never in DOM order. -/
theorem sorted_periods_spec :
    sorted_periods ["Dinner", "Breakfast", "Lunch"] = ["Breakfast", "Lunch", "Dinner"]
    ∧ (∀ ps, (sorted_periods ps).Perm ps)
    ∧ (∀ ps, (sorted_periods ps).Pairwise (fun a b => period_order a ≤ period_order b))
    ∧ (∀ ps, (sorted_periods ps).filter (fun p => period_order p == 99) =
        ps.filter (fun p => period_order p == 99))
    ∧ (∀ (env : ScrapeEnv) (d : String),
        ((processDate env d).map (fun e => e.period)).Sublist PERIODS) :=
  ⟨by decide, sorted_periods_perm, sorted_periods_pairwise, sorted_periods_filter,
   processDate_map_period_sublist⟩
